import Mathlib

/-!
Shallow embedding of the Btc-mempool-watcher repository:
`src/Cache.py` (an expiring membership cache) and
`src/BtcOutputWatcher.py` (the watch-and-dump poller).

Modelling conventions:
* Python's `time.time()` instants and TTLs are modelled as integers (`Int`);
  every comparison in the source is an exact order comparison, so only the
  order structure matters.  Each poll cycle is modelled with a single fixed
  current time `now`.
* The Python `dict` backing store of `Cache` is modelled as an association
  list with at-most-one entry per key in actual use; operations follow the
  dict semantics (assignment replaces in place, `pop` removes the entry).
* RPC calls are modelled by oracles: the candidate listing as an
  `Except Unit (List String)` and the per-transaction detail fetch as a
  function `String → Fetch Tx`, where `Fetch.err` stands for a raised
  transport error.
* Raised-and-uncaught Python exceptions are modelled as `Except.error` /
  an `Option String` escaping component.
-/

/-! ## The expiring cache (src/Cache.py) -/

/-- Look up the entry stored for key `k` in a dict modelled as an
association list of `(key, value, expiry)` triples. -/
def lookupEntry {κ α : Type} [DecidableEq κ] : List (κ × α × Int) → κ → Option (α × Int)
  | [], _ => none
  | (k2, v, e) :: rest, k => if k2 = k then some (v, e) else lookupEntry rest k

/-- `self._store.pop(key, None)` / `del self._store[key]`: remove the entry
for `k` if present (first occurrence; a dict has at most one). -/
def popEntry {κ α : Type} [DecidableEq κ] : List (κ × α × Int) → κ → List (κ × α × Int)
  | [], _ => []
  | (k2, v, e) :: rest, k => if k2 = k then rest else (k2, v, e) :: popEntry rest k

/-- `self._store[key] = (value, expiry)`: dict assignment, replacing the
existing entry in place or appending a new one. -/
def storeAssign {κ α : Type} [DecidableEq κ] :
    List (κ × α × Int) → κ → α → Int → List (κ × α × Int)
  | [], k, v, e => [(k, v, e)]
  | (k2, v2, e2) :: rest, k, v, e =>
    if k2 = k then (k, v, e) :: rest else (k2, v2, e2) :: storeAssign rest k v e

/-- The `Cache` class: a dict from keys to `(value, expiry)` plus a default
TTL (`Cache.__init__`). -/
structure Cache (κ α : Type) where
  store : List (κ × α × Int)
  default_ttl : Int
deriving Repr, DecidableEq

/-- `Cache._is_expired`: true if the key is missing, or the current time is
strictly past the stored expiry (`time.time() > expiry`). -/
def Cache.isExpiredAt {κ α : Type} [DecidableEq κ] (c : Cache κ α) (now : Int) (k : κ) : Bool :=
  match lookupEntry c.store k with
  | none => true
  | some (_, e) => decide (now > e)

/-- `Cache.set`: store `(value, now + ttl)`, the TTL defaulting to
`default_ttl` when `none` is passed. -/
def Cache.setAt {κ α : Type} [DecidableEq κ] (c : Cache κ α) (now : Int) (k : κ) (v : α)
    (ttl : Option Int) : Cache κ α :=
  { c with store := storeAssign c.store k v (now + ttl.getD c.default_ttl) }

/-- `Cache.__contains__`: on an expired (or missing) key, pop it and answer
`false`; otherwise answer whether the key is in the backing store.  Returns
the possibly mutated cache alongside the answer. -/
def Cache.containsAt {κ α : Type} [DecidableEq κ] (c : Cache κ α) (now : Int) (k : κ) :
    Bool × Cache κ α :=
  if c.isExpiredAt now k then (false, { c with store := popEntry c.store k })
  else ((lookupEntry c.store k).isSome, c)

/-- `Cache.cleanup`: collect every key reported expired, then pop each of
them from the backing store. -/
def Cache.cleanupAt {κ α : Type} [DecidableEq κ] (c : Cache κ α) (now : Int) : Cache κ α :=
  let expiredKeys := (c.store.map (fun p => p.1)).filter (fun k => c.isExpiredAt now k)
  { c with store := expiredKeys.foldl (fun s k => popEntry s k) c.store }

/-- `Cache.__delitem__`: `del self._store[key]`, raising `KeyError` exactly
when the key is absent from the backing store (expiry is not consulted). -/
def Cache.delItem {κ α : Type} [DecidableEq κ] (c : Cache κ α) (k : κ) :
    Except Unit (Cache κ α) :=
  match lookupEntry c.store k with
  | some _ => .ok { c with store := popEntry c.store k }
  | none => .error ()

/-! ## The watcher (src/BtcOutputWatcher.py) -/

/-- One element of a transaction's `vin` array: the `txid` / `vout` fields
are present only when the input spends a previous output (coinbase-style
inputs carry neither). -/
structure Vin where
  txid : Option String
  vout : Option Int
deriving Repr, DecidableEq

/-- A fetched transaction detail record: its own (optional) `txid` field and
its `vin` array. -/
structure Tx where
  txid : Option String
  vin : List Vin
deriving Repr, DecidableEq

/-- The input-scanning loop of `BtcOutputWatcher._tx_spends_watched_outputs`:
for each `vin`, if both `txid` and `vout` are present and the pair is in the
watched set, return `True` immediately; otherwise continue. -/
def spendsAux (watched : List (String × Int)) : List Vin → Bool
  | [] => false
  | v :: rest =>
    match v.txid, v.vout with
    | some pt, some pi => if (pt, pi) ∈ watched then true else spendsAux watched rest
    | _, _ => spendsAux watched rest

/-- `BtcOutputWatcher._tx_spends_watched_outputs`. -/
def tx_spends_watched_outputs (watched : List (String × Int)) (tx : Tx) : Bool :=
  spendsAux watched tx.vin

/-- The dump file name chosen by `BtcOutputWatcher._dump_transaction`:
`tx.get("txid", "unknown_txid")` followed by `.json`. -/
def dump_file_name (tx : Tx) : String :=
  tx.txid.getD "unknown_txid" ++ ".json"

/-- The full dump path `os.path.join(self.dump_folder, f"{txid}.json")`. -/
def dump_path (folder : String) (tx : Tx) : String :=
  folder ++ "/" ++ dump_file_name tx

/-- Outcome of the per-identifier `getrawtransaction` RPC call: a detail
record, or a raised transport error. -/
inductive Fetch (α : Type) where
  | ok (val : α)
  | err
deriving Repr, DecidableEq

/-- Observable state of the poller during `_process_mempool`: the cache, the
transactions dumped so far, and a log of the identifiers for which the
fetch-and-match step was executed (the fetch RPC was issued). -/
structure WatchState where
  cache : Cache String Bool
  dumped : List Tx
  fetchLog : List String
deriving Repr, DecidableEq

/-- The body of the `for txid in txids` loop of
`BtcOutputWatcher._process_mempool`:

* `if txid in self.cache: continue` (the membership test may pop a stale
  entry even on a miss);
* otherwise `try:` fetch the detail record; on success, test it against the
  watch-list and dump on a match; `except:` log the error;
* in either case (the `cache.set` sits after the `try`/`except`) mark the
  identifier seen with the default TTL. -/
def processTxid (watched : List (String × Int)) (fetch : String → Fetch Tx) (now : Int)
    (st : WatchState) (txid : String) : WatchState :=
  let hit := st.cache.containsAt now txid
  if hit.1 then { st with cache := hit.2 }
  else
    let st1 : WatchState := { st with cache := hit.2 }
    match fetch txid with
    | .ok tx =>
      let st2 :=
        if tx_spends_watched_outputs watched tx then
          { st1 with dumped := st1.dumped ++ [tx], fetchLog := st1.fetchLog ++ [txid] }
        else
          { st1 with fetchLog := st1.fetchLog ++ [txid] }
      { st2 with cache := st2.cache.setAt now txid true none }
    | .err =>
      let st2 := { st1 with fetchLog := st1.fetchLog ++ [txid] }
      { st2 with cache := st2.cache.setAt now txid true none }

/-- `BtcOutputWatcher._process_mempool` given a successfully listed set of
candidate identifiers: process each identifier in order, then
`self.cache.cleanup()`. -/
def processMempool (watched : List (String × Int)) (fetch : String → Fetch Tx) (now : Int)
    (txids : List String) (st : WatchState) : WatchState :=
  let st1 := txids.foldl (processTxid watched fetch now) st
  { st1 with cache := st1.cache.cleanupAt now }

/-- Python `str.strip()`: drop whitespace from both ends (modelled at the
character-list level so that concrete inputs evaluate). -/
def stripChars (s : List Char) : List Char :=
  ((s.dropWhile (fun c => c.isWhitespace)).reverse.dropWhile
      (fun c => c.isWhitespace)).reverse

/-- Python `str.split(",")`: split at every comma; the result always has at
least one (possibly empty) field. -/
def splitComma : List Char → List (List Char)
  | [] => [[]]
  | c :: rest =>
    let r := splitComma rest
    if c = ',' then [] :: r
    else
      match r with
      | [] => [[c]]
      | g :: gs => (c :: g) :: gs

/-- Decimal digit run for Python `int()`: every character must be a digit
(underscore grouping is not modelled; no claim depends on it). -/
def digitsVal : List Char → Nat → Option Nat
  | [], acc => some acc
  | c :: rest, acc =>
    if c.isDigit then digitsVal rest (acc * 10 + (c.toNat - 48)) else none

/-- Python `int(str)`: strip, optional sign, then a nonempty digit run;
anything else raises `ValueError` (modelled as `none`). -/
def parsePyInt (s : List Char) : Option Int :=
  match stripChars s with
  | [] => none
  | '-' :: ds => if ds = [] then none else (digitsVal ds 0).map (fun n => -(n : Int))
  | '+' :: ds => if ds = [] then none else (digitsVal ds 0).map (fun n => (n : Int))
  | ds => (digitsVal ds 0).map (fun n => (n : Int))

/-- One line of the watch-list file, after the blank test:
`txid, output_index = line.strip().split(",")` (a `ValueError` unless the
split yields exactly two fields) followed by `int(output_index)`. -/
def parseOutputsLine (line : String) : Except String (String × Int) :=
  match splitComma (stripChars line.data) with
  | [t, i] =>
    match parsePyInt i with
    | some n => .ok (String.mk t, n)
    | none => .error "ValueError"
  | _ => .error "ValueError"

/-- The line loop of `BtcOutputWatcher._load_watched_outputs`: skip blank
lines (`if line.strip():`), parse the rest, aborting the whole load on the
first malformed line. -/
def loadLines (acc : List (String × Int)) : List String → Except String (List (String × Int))
  | [] => .ok acc
  | line :: rest =>
    if stripChars line.data = [] then loadLines acc rest
    else
      match parseOutputsLine line with
      | .ok p => loadLines (acc ++ [p]) rest
      | .error e => .error e

/-- `BtcOutputWatcher._load_watched_outputs`: `none` models a missing file
(`FileNotFoundError` from `open`); otherwise the file is a list of lines.
The watched set is built in a fresh local collection and returned only when
every line parsed. -/
def load_watched_outputs (file : Option (List String)) : Except String (List (String × Int)) :=
  match file with
  | none => .error "FileNotFoundError"
  | some lines => loadLines [] lines

/-- The full observable state of a `BtcOutputWatcher`: the in-memory
watched-outputs set plus the mempool-processing state. -/
structure FullState where
  watched : List (String × Int)
  ws : WatchState
deriving Repr, DecidableEq

/-- One cycle of `BtcOutputWatcher.run`:

* `self.watched_outputs = self._load_watched_outputs()` — executed OUTSIDE
  the `try` block, so a load failure propagates out of `run` (modelled by
  returning the unchanged state together with `some` exception);
* `try: self._process_mempool() except Exception: print(...)` — a failure
  of the candidate listing (or anything else inside `_process_mempool`) is
  caught here and the cycle proceeds (exception component `none`). -/
def runCycle (file : Option (List String)) (listing : Except Unit (List String))
    (fetch : String → Fetch Tx) (now : Int) (st : FullState) : FullState × Option String :=
  match load_watched_outputs file with
  | .error e => (st, some e)
  | .ok w =>
    let st1 : FullState := { st with watched := w }
    match listing with
    | .error _ => (st1, none)
    | .ok txids => ({ st1 with ws := processMempool w fetch now txids st1.ws }, none)

/-! ## Association-list and cache lemmas -/

theorem lookupEntry_storeAssign_self {κ α : Type} [DecidableEq κ]
    (s : List (κ × α × Int)) (k : κ) (v : α) (e : Int) :
    lookupEntry (storeAssign s k v e) k = some (v, e) := by
  induction s with
  | nil => simp [storeAssign, lookupEntry]
  | cons p rest ih =>
    obtain ⟨k2, v2, e2⟩ := p
    by_cases h : k2 = k
    · simp [storeAssign, h, lookupEntry]
    · simp [storeAssign, h, lookupEntry, ih]

theorem lookupEntry_storeAssign_ne {κ α : Type} [DecidableEq κ]
    (s : List (κ × α × Int)) (k : κ) (v : α) (e : Int) (kq : κ) (h : kq ≠ k) :
    lookupEntry (storeAssign s k v e) kq = lookupEntry s kq := by
  have hks : ¬ (k = kq) := fun hh => h hh.symm
  induction s with
  | nil => simp [storeAssign, lookupEntry, hks]
  | cons p rest ih =>
    obtain ⟨k2, v2, e2⟩ := p
    by_cases h2 : k2 = k
    · subst h2
      simp [storeAssign, lookupEntry, hks]
    · simp [storeAssign, h2, lookupEntry, ih]

theorem lookupEntry_popEntry_ne {κ α : Type} [DecidableEq κ]
    (s : List (κ × α × Int)) (k kq : κ) (h : kq ≠ k) :
    lookupEntry (popEntry s k) kq = lookupEntry s kq := by
  have hks : ¬ (k = kq) := fun hh => h hh.symm
  induction s with
  | nil => simp [popEntry]
  | cons p rest ih =>
    obtain ⟨k2, v2, e2⟩ := p
    by_cases h2 : k2 = k
    · subst h2
      simp [popEntry, lookupEntry, hks]
    · simp [popEntry, h2, lookupEntry, ih]

theorem popEntry_of_lookup_none {κ α : Type} [DecidableEq κ]
    (s : List (κ × α × Int)) (k : κ) (h : lookupEntry s k = none) :
    popEntry s k = s := by
  induction s with
  | nil => simp [popEntry]
  | cons p rest ih =>
    obtain ⟨k2, v2, e2⟩ := p
    by_cases h2 : k2 = k
    · simp [lookupEntry, h2] at h
    · simp [lookupEntry, h2] at h
      simp [popEntry, h2, ih h]

theorem containsAt_of_lookup_some {κ α : Type} [DecidableEq κ]
    (c : Cache κ α) (now : Int) (k : κ) (v : α) (e : Int)
    (hl : lookupEntry c.store k = some (v, e)) (he : now ≤ e) :
    c.containsAt now k = (true, c) := by
  have hex : c.isExpiredAt now k = false := by
    simp [Cache.isExpiredAt, hl]
    omega
  simp [Cache.containsAt, hex, hl]

theorem containsAt_of_lookup_none {κ α : Type} [DecidableEq κ]
    (c : Cache κ α) (now : Int) (k : κ)
    (hl : lookupEntry c.store k = none) :
    c.containsAt now k = (false, c) := by
  have hex : c.isExpiredAt now k = true := by
    simp [Cache.isExpiredAt, hl]
  have hpop : popEntry c.store k = c.store := popEntry_of_lookup_none c.store k hl
  simp [Cache.containsAt, hex, hpop]

theorem containsAt_of_expired {κ α : Type} [DecidableEq κ]
    (c : Cache κ α) (now : Int) (k : κ) (v : α) (e : Int)
    (hl : lookupEntry c.store k = some (v, e)) (he : now > e) :
    c.containsAt now k = (false, { c with store := popEntry c.store k }) := by
  have hex : c.isExpiredAt now k = true := by
    simp [Cache.isExpiredAt, hl]
    omega
  simp [Cache.containsAt, hex]

theorem containsAt_snd_lookup_ne {κ α : Type} [DecidableEq κ]
    (c : Cache κ α) (now : Int) (k kq : κ) (h : kq ≠ k) :
    lookupEntry ((c.containsAt now k).2).store kq = lookupEntry c.store kq := by
  by_cases hex : c.isExpiredAt now k = true
  · simp [Cache.containsAt, hex, lookupEntry_popEntry_ne c.store k kq h]
  · simp [Cache.containsAt, hex]

theorem containsAt_snd_default {κ α : Type} [DecidableEq κ]
    (c : Cache κ α) (now : Int) (k : κ) :
    ((c.containsAt now k).2).default_ttl = c.default_ttl := by
  by_cases hex : c.isExpiredAt now k = true
  · simp [Cache.containsAt, hex]
  · simp [Cache.containsAt, hex]

theorem setAt_default {κ α : Type} [DecidableEq κ]
    (c : Cache κ α) (now : Int) (k : κ) (v : α) (ttl : Option Int) :
    (c.setAt now k v ttl).default_ttl = c.default_ttl := rfl

/-! ## Per-identifier processing lemmas -/

theorem processTxid_hit (watched : List (String × Int)) (fetch : String → Fetch Tx)
    (now : Int) (st : WatchState) (id : String)
    (h : (st.cache.containsAt now id).1 = true) :
    processTxid watched fetch now st id = { st with cache := (st.cache.containsAt now id).2 } := by
  simp [processTxid, h]

theorem processTxid_miss_ok (watched : List (String × Int)) (fetch : String → Fetch Tx)
    (now : Int) (st : WatchState) (id : String) (tx : Tx)
    (h : (st.cache.containsAt now id).1 = false) (hf : fetch id = Fetch.ok tx) :
    processTxid watched fetch now st id =
      { cache := ((st.cache.containsAt now id).2).setAt now id true none,
        dumped := if tx_spends_watched_outputs watched tx then st.dumped ++ [tx] else st.dumped,
        fetchLog := st.fetchLog ++ [id] } := by
  simp only [processTxid, h, Bool.false_eq_true, if_false, hf]
  split <;> rfl

theorem processTxid_miss_err (watched : List (String × Int)) (fetch : String → Fetch Tx)
    (now : Int) (st : WatchState) (id : String)
    (h : (st.cache.containsAt now id).1 = false) (hf : fetch id = Fetch.err) :
    processTxid watched fetch now st id =
      { cache := ((st.cache.containsAt now id).2).setAt now id true none,
        dumped := st.dumped,
        fetchLog := st.fetchLog ++ [id] } := by
  simp only [processTxid, h, Bool.false_eq_true, if_false, hf]

theorem processTxid_cached (watched : List (String × Int)) (fetch : String → Fetch Tx)
    (now : Int) (st : WatchState) (txid : String) (v : Bool) (e : Int)
    (hl : lookupEntry st.cache.store txid = some (v, e)) (he : now ≤ e) :
    processTxid watched fetch now st txid = st := by
  have hc := containsAt_of_lookup_some st.cache now txid v e hl he
  have h1 : (st.cache.containsAt now txid).1 = true := by rw [hc]
  rw [processTxid_hit watched fetch now st txid h1, hc]

theorem processTxid_other (watched : List (String × Int)) (fetch : String → Fetch Tx)
    (now : Int) (st : WatchState) (id txid : String) (hid : id ≠ txid) :
    lookupEntry (processTxid watched fetch now st id).cache.store txid
        = lookupEntry st.cache.store txid ∧
    List.count txid (processTxid watched fetch now st id).fetchLog
        = List.count txid st.fetchLog ∧
    (processTxid watched fetch now st id).cache.default_ttl = st.cache.default_ttl := by
  have hq : txid ≠ id := fun hh => hid hh.symm
  have hsnd := containsAt_snd_lookup_ne st.cache now id txid hq
  have hdef := containsAt_snd_default st.cache now id
  have hcount : List.count txid (st.fetchLog ++ [id]) = List.count txid st.fetchLog := by
    simp [List.count_append, List.count_singleton', hid]
  by_cases h : (st.cache.containsAt now id).1 = true
  · rw [processTxid_hit watched fetch now st id h]
    exact ⟨hsnd, rfl, hdef⟩
  · have h2 : (st.cache.containsAt now id).1 = false := by
      cases hb : (st.cache.containsAt now id).1
      · rfl
      · exact absurd hb h
    cases hf : fetch id with
    | ok tx =>
      rw [processTxid_miss_ok watched fetch now st id tx h2 hf]
      refine ⟨?_, hcount, ?_⟩
      · simp only [Cache.setAt]
        rw [lookupEntry_storeAssign_ne _ _ _ _ _ hq]
        exact hsnd
      · simp [Cache.setAt, hdef]
    | err =>
      rw [processTxid_miss_err watched fetch now st id h2 hf]
      refine ⟨?_, hcount, ?_⟩
      · simp only [Cache.setAt]
        rw [lookupEntry_storeAssign_ne _ _ _ _ _ hq]
        exact hsnd
      · simp [Cache.setAt, hdef]

theorem processTxid_fresh (watched : List (String × Int)) (fetch : String → Fetch Tx)
    (now : Int) (st : WatchState) (txid : String)
    (hl : lookupEntry st.cache.store txid = none) :
    lookupEntry (processTxid watched fetch now st txid).cache.store txid
        = some (true, now + st.cache.default_ttl) ∧
    List.count txid (processTxid watched fetch now st txid).fetchLog
        = List.count txid st.fetchLog + 1 ∧
    (processTxid watched fetch now st txid).cache.default_ttl = st.cache.default_ttl := by
  have hc := containsAt_of_lookup_none st.cache now txid hl
  have h2 : (st.cache.containsAt now txid).1 = false := by rw [hc]
  have hcount : List.count txid (st.fetchLog ++ [txid]) = List.count txid st.fetchLog + 1 := by
    simp [List.count_append, List.count_singleton]
  cases hf : fetch txid with
  | ok tx =>
    rw [processTxid_miss_ok watched fetch now st txid tx h2 hf]
    refine ⟨?_, hcount, ?_⟩
    · rw [hc]
      simp [Cache.setAt, lookupEntry_storeAssign_self]
    · simp [Cache.setAt, containsAt_snd_default]
  | err =>
    rw [processTxid_miss_err watched fetch now st txid h2 hf]
    refine ⟨?_, hcount, ?_⟩
    · rw [hc]
      simp [Cache.setAt, lookupEntry_storeAssign_self]
    · simp [Cache.setAt, containsAt_snd_default]

/-! ## Cycle-level invariant lemmas -/

theorem foldl_processTxid_preserves (watched : List (String × Int))
    (fetch : String → Fetch Tx) (now : Int) (txid : String) (v : Bool) (e : Int) :
    ∀ (l : List String) (st : WatchState),
    lookupEntry st.cache.store txid = some (v, e) → now ≤ e →
    lookupEntry (l.foldl (processTxid watched fetch now) st).cache.store txid = some (v, e) ∧
    List.count txid (l.foldl (processTxid watched fetch now) st).fetchLog
        = List.count txid st.fetchLog ∧
    (l.foldl (processTxid watched fetch now) st).cache.default_ttl
        = st.cache.default_ttl := by
  intro l
  induction l with
  | nil => intro st hl _; exact ⟨hl, rfl, rfl⟩
  | cons id rest ih =>
    intro st hl he
    simp only [List.foldl_cons]
    by_cases hid : id = txid
    · subst hid
      rw [processTxid_cached watched fetch now st id v e hl he]
      exact ih st hl he
    · obtain ⟨h1, h2, h3⟩ := processTxid_other watched fetch now st id txid hid
      obtain ⟨g1, g2, g3⟩ := ih (processTxid watched fetch now st id) (h1.trans hl) he
      exact ⟨g1, g2.trans h2, g3.trans h3⟩

theorem foldl_processTxid_fresh (watched : List (String × Int))
    (fetch : String → Fetch Tx) (now : Int) (txid : String) :
    ∀ (l : List String) (st : WatchState),
    lookupEntry st.cache.store txid = none →
    0 ≤ st.cache.default_ttl →
    txid ∈ l →
    lookupEntry (l.foldl (processTxid watched fetch now) st).cache.store txid
        = some (true, now + st.cache.default_ttl) ∧
    List.count txid (l.foldl (processTxid watched fetch now) st).fetchLog
        = List.count txid st.fetchLog + 1 := by
  intro l
  induction l with
  | nil => intro st _ _ hmem; cases hmem
  | cons id rest ih =>
    intro st hl hd hmem
    simp only [List.foldl_cons]
    by_cases hid : id = txid
    · subst hid
      obtain ⟨h1, h2, h3⟩ := processTxid_fresh watched fetch now st id hl
      obtain ⟨g1, g2, g3⟩ := foldl_processTxid_preserves watched fetch now id true
        (now + st.cache.default_ttl) rest (processTxid watched fetch now st id) h1 (by omega)
      exact ⟨g1, by rw [g2, h2]⟩
    · obtain ⟨h1, h2, h3⟩ := processTxid_other watched fetch now st id txid hid
      have hmem2 : txid ∈ rest := by
        rcases List.mem_cons.mp hmem with hmh | hmh
        · exact absurd hmh.symm hid
        · exact hmh
      obtain ⟨g1, g2⟩ := ih (processTxid watched fetch now st id) (h1.trans hl)
        (by rw [h3]; exact hd) hmem2
      rw [h3] at g1
      exact ⟨g1, by rw [g2, h2]⟩

theorem foldl_popEntry_lookup {κ α : Type} [DecidableEq κ] (k : κ) :
    ∀ (K : List κ) (s : List (κ × α × Int)), (∀ k2 ∈ K, k2 ≠ k) →
    lookupEntry (K.foldl (fun s2 k2 => popEntry s2 k2) s) k = lookupEntry s k := by
  intro K
  induction K with
  | nil => intro s _; rfl
  | cons k2 rest ih =>
    intro s hne
    simp only [List.foldl_cons]
    rw [ih (popEntry s k2) (fun k3 hk3 => hne k3 (List.mem_cons_of_mem _ hk3))]
    exact lookupEntry_popEntry_ne s k2 k
      (fun hh => absurd hh.symm (hne k2 (List.mem_cons_self _ _)))

theorem cleanupAt_lookup {κ α : Type} [DecidableEq κ] (c : Cache κ α) (now : Int)
    (k : κ) (v : α) (e : Int)
    (hl : lookupEntry c.store k = some (v, e)) (he : now ≤ e) :
    lookupEntry (c.cleanupAt now).store k = some (v, e) ∧
    (c.cleanupAt now).default_ttl = c.default_ttl := by
  constructor
  · simp only [Cache.cleanupAt]
    rw [foldl_popEntry_lookup k _ c.store ?_]
    · exact hl
    · intro k2 hk2 hkk
      subst hkk
      have hexp := (List.mem_filter.mp hk2).2
      simp [Cache.isExpiredAt, hl] at hexp
      omega
  · simp [Cache.cleanupAt]

theorem processMempool_preserves (watched : List (String × Int))
    (fetch : String → Fetch Tx) (now : Int) (txids : List String) (st : WatchState)
    (txid : String) (v : Bool) (e : Int)
    (hl : lookupEntry st.cache.store txid = some (v, e)) (he : now ≤ e) :
    lookupEntry (processMempool watched fetch now txids st).cache.store txid = some (v, e) ∧
    List.count txid (processMempool watched fetch now txids st).fetchLog
        = List.count txid st.fetchLog := by
  obtain ⟨h1, h2, h3⟩ := foldl_processTxid_preserves watched fetch now txid v e txids st hl he
  obtain ⟨g1, _⟩ := cleanupAt_lookup (txids.foldl (processTxid watched fetch now) st).cache
    now txid v e h1 he
  exact ⟨g1, h2⟩

theorem processMempool_fresh (watched : List (String × Int))
    (fetch : String → Fetch Tx) (now : Int) (txids : List String) (st : WatchState)
    (txid : String)
    (hl : lookupEntry st.cache.store txid = none)
    (hd : 0 ≤ st.cache.default_ttl)
    (hmem : txid ∈ txids) :
    lookupEntry (processMempool watched fetch now txids st).cache.store txid
        = some (true, now + st.cache.default_ttl) ∧
    List.count txid (processMempool watched fetch now txids st).fetchLog
        = List.count txid st.fetchLog + 1 := by
  obtain ⟨h1, h2⟩ := foldl_processTxid_fresh watched fetch now txid txids st hl hd hmem
  obtain ⟨g1, _⟩ := cleanupAt_lookup (txids.foldl (processTxid watched fetch now) st).cache
    now txid true (now + st.cache.default_ttl) h1 (by omega)
  exact ⟨g1, h2⟩

/-! ## Sweep lemmas (keys are unique in an actual dict) -/

theorem lookupEntry_of_nodup_mem {κ α : Type} [DecidableEq κ]
    (s : List (κ × α × Int)) (p : κ × α × Int)
    (h : (s.map (fun q => q.1)).Nodup) (hp : p ∈ s) :
    lookupEntry s p.1 = some p.2 := by
  induction s with
  | nil => cases hp
  | cons q rest ih =>
    obtain ⟨k2, v2, e2⟩ := q
    rcases List.mem_cons.mp hp with hh | hh
    · subst hh
      simp [lookupEntry]
    · have hne : k2 ≠ p.1 := by
        intro hkk
        have : p.1 ∈ rest.map (fun q => q.1) := List.mem_map_of_mem _ hh
        rw [← hkk] at this
        exact (List.nodup_cons.mp h).1 this
      simp only [lookupEntry, hne, if_false]
      exact ih (List.nodup_cons.mp h).2 hh

theorem popEntry_eq_filter_of_nodup {κ α : Type} [DecidableEq κ]
    (s : List (κ × α × Int)) (k : κ) (h : (s.map (fun q => q.1)).Nodup) :
    popEntry s k = s.filter (fun p => decide (p.1 ≠ k)) := by
  induction s with
  | nil => simp [popEntry]
  | cons q rest ih =>
    obtain ⟨k2, v2, e2⟩ := q
    by_cases h2 : k2 = k
    · subst h2
      have hne : ∀ p ∈ rest, p.1 ≠ k2 := by
        intro p hp hkk
        have hm : p.1 ∈ rest.map (fun q => q.1) := List.mem_map_of_mem _ hp
        rw [hkk] at hm
        exact (List.nodup_cons.mp h).1 hm
      have hall : rest.filter (fun p => !decide (p.1 = k2)) = rest := by
        apply List.filter_eq_self.mpr
        intro p hp
        simpa using hne p hp
      simp [popEntry, List.filter_cons, hall]
    · simp [popEntry, h2, List.filter_cons, ih (List.nodup_cons.mp h).2]

theorem nodupKeys_filter {κ α : Type} [DecidableEq κ]
    (s : List (κ × α × Int)) (p : κ × α × Int → Bool)
    (h : (s.map (fun q => q.1)).Nodup) :
    ((s.filter p).map (fun q => q.1)).Nodup :=
  h.sublist (List.Sublist.map _ (List.filter_sublist s))

theorem foldl_pop_eq_filter {κ α : Type} [DecidableEq κ] :
    ∀ (K : List κ) (s : List (κ × α × Int)), (s.map (fun q => q.1)).Nodup →
    K.foldl (fun s2 k => popEntry s2 k) s = s.filter (fun p => decide (p.1 ∉ K)) := by
  intro K
  induction K with
  | nil =>
    intro s _
    simp only [List.foldl_nil]
    refine (List.filter_eq_self.mpr ?_).symm
    intro p _
    simp
  | cons k rest ih =>
    intro s h
    simp only [List.foldl_cons]
    rw [popEntry_eq_filter_of_nodup s k h,
      ih (s.filter (fun p => decide (p.1 ≠ k))) (nodupKeys_filter s _ h),
      List.filter_filter]
    apply List.filter_congr
    intro p _
    by_cases h1 : p.1 = k
    · simp [h1]
    · by_cases h2 : p.1 ∈ rest
      · simp [h1, h2]
      · simp [h1, h2]

/-! ## Match-predicate lemmas -/

theorem spendsAux_iff (watched : List (String × Int)) (l : List Vin) :
    spendsAux watched l = true ↔
      ∃ v ∈ l, ∃ pt pi, v.txid = some pt ∧ v.vout = some pi ∧ (pt, pi) ∈ watched := by
  induction l with
  | nil => simp [spendsAux]
  | cons v rest ih =>
    obtain ⟨vt, vv⟩ := v
    have step : ∀ (hrec : spendsAux watched (⟨vt, vv⟩ :: rest) = spendsAux watched rest)
        (hhd : ∀ pt pi, vt = some pt → vv = some pi → (pt, pi) ∉ watched),
        (spendsAux watched (⟨vt, vv⟩ :: rest) = true ↔
          ∃ v2 ∈ (⟨vt, vv⟩ :: rest : List Vin), ∃ pt pi,
            v2.txid = some pt ∧ v2.vout = some pi ∧ (pt, pi) ∈ watched) := by
      intro hrec hhd
      rw [hrec, ih]
      constructor
      · rintro ⟨v2, hv2, pt, pi, h1, h2, h3⟩
        exact ⟨v2, List.mem_cons_of_mem _ hv2, pt, pi, h1, h2, h3⟩
      · rintro ⟨v2, hv2, pt, pi, h1, h2, h3⟩
        rcases List.mem_cons.mp hv2 with hh | hh
        · subst hh
          exact absurd h3 (hhd pt pi h1 h2)
        · exact ⟨v2, hh, pt, pi, h1, h2, h3⟩
    cases vt with
    | none =>
      apply step
      · cases vv <;> rfl
      · intro pt pi h1 _
        cases h1
    | some pt0 =>
      cases vv with
      | none =>
        apply step
        · rfl
        · intro pt pi _ h2
          cases h2
      | some pi0 =>
        by_cases hw : (pt0, pi0) ∈ watched
        · constructor
          · intro _
            exact ⟨⟨some pt0, some pi0⟩, List.mem_cons_self _ _, pt0, pi0, rfl, rfl, hw⟩
          · intro _
            simp [spendsAux, hw]
        · apply step
          · simp [spendsAux, hw]
          · intro pt pi h1 h2
            cases h1
            cases h2
            exact hw

/-! ## Claim theorems -/

/-- C1: the match predicate returns true iff some input of the transaction
carries both a spent-txid and a spent-output-index whose pair is in the
watch-list; inputs lacking either field never contribute; and a matching
input makes the result true regardless of the inputs after it (the scan
stops at the first match). -/
theorem C1_match_predicate (watched : List (String × Int)) (tx : Tx) :
    (tx_spends_watched_outputs watched tx = true ↔
      ∃ v ∈ tx.vin, ∃ pt pi, v.txid = some pt ∧ v.vout = some pi ∧ (pt, pi) ∈ watched) ∧
    (∀ pt pi rest, (pt, pi) ∈ watched →
      spendsAux watched (Vin.mk (some pt) (some pi) :: rest) = true) := by
  constructor
  · exact spendsAux_iff watched tx.vin
  · intro pt pi rest hw
    simp [spendsAux, hw]

/-- C1 witness: the spec's own example, a transaction with inputs
`(A, 0), (B, 1)` against the watch-list containing `(A, 0)`. -/
theorem C1_match_predicate_witness :
    ("A", (0 : Int)) ∈ [("A", (0 : Int))] ∧
    spendsAux [("A", (0 : Int))] [Vin.mk (some "A") (some 0), Vin.mk (some "B") (some 1)]
      = true := by
  have hmem : ("A", (0 : Int)) ∈ [("A", (0 : Int))] := List.mem_singleton.mpr rfl
  exact ⟨hmem,
    (C1_match_predicate [("A", (0 : Int))] ⟨none, []⟩).2 "A" 0 [Vin.mk (some "B") (some 1)] hmem⟩

/-- C4 counterexample: key set at time 0 with ttl 10; a `contains` query at
time 10 = set_time + ttl satisfies the claim's "time ≥ set_time + t" side
but still answers `true` (the code tests `time.time() > expiry`, strictly). -/
theorem C4_counterexample :
    (0 : Int) + 10 ≤ 10 ∧
    (((Cache.mk ([] : List (String × Bool × Int)) 60).setAt 0 "k" true (some 10)).containsAt
        10 "k").1 = true := by
  exact ⟨by norm_num, rfl⟩

/-- C4 amended: with no intervening operation, a `contains` query on a key
set at `set_time` with ttl `t` answers true exactly when the query time is
at most `set_time + t` (false strictly after, true at and before the
boundary instant). -/
theorem C4_ttl_window {κ α : Type} [DecidableEq κ] (c : Cache κ α) (set_time t now : Int)
    (k : κ) (v : α) :
    ((c.setAt set_time k v (some t)).containsAt now k).1 = true ↔ now ≤ set_time + t := by
  have hl : lookupEntry (c.setAt set_time k v (some t)).store k = some (v, set_time + t) := by
    simp [Cache.setAt, lookupEntry_storeAssign_self]
  by_cases h : now ≤ set_time + t
  · rw [containsAt_of_lookup_some _ now k v (set_time + t) hl h]
    simp [h]
  · rw [containsAt_of_expired _ now k v (set_time + t) hl (by omega)]
    simp [h]

/-- C5 counterexample: a stored entry whose expiry equals the sweep time
survives `cleanup` (the code evicts only entries with `now > expiry`), so
after the sweep a stored entry with `expires_at ≤ now` remains. -/
theorem C5_counterexample :
    (5 : Int) ≤ 5 ∧
    ((Cache.mk [("k", true, (5 : Int))] 60).cleanupAt 5).store = [("k", true, (5 : Int))] := by
  exact ⟨by norm_num, rfl⟩

/-- C5 amended: for a backing store with unique keys (always true of a
Python dict), after `cleanup` no stored entry has `expires_at < now`, and
the surviving store is exactly the original store restricted to entries
with `expires_at ≥ now`, each kept with value, expiry and position
unchanged. -/
theorem C5_sweep {κ α : Type} [DecidableEq κ] (c : Cache κ α) (now : Int)
    (h : (c.store.map (fun p => p.1)).Nodup) :
    (c.cleanupAt now).store = c.store.filter (fun p => decide (now ≤ p.2.2)) ∧
    (∀ p ∈ (c.cleanupAt now).store, now ≤ p.2.2) ∧
    (∀ p ∈ c.store, now ≤ p.2.2 → p ∈ (c.cleanupAt now).store) := by
  have key : (c.cleanupAt now).store = c.store.filter (fun p => decide (now ≤ p.2.2)) := by
    simp only [Cache.cleanupAt]
    rw [foldl_pop_eq_filter _ c.store h]
    apply List.filter_congr
    intro p hp
    have hlk : lookupEntry c.store p.1 = some p.2 := lookupEntry_of_nodup_mem c.store p h hp
    have hiff : p.1 ∈ (c.store.map (fun q => q.1)).filter (fun k => c.isExpiredAt now k)
        ↔ now > p.2.2 := by
      rw [List.mem_filter]
      constructor
      · intro hc
        have := hc.2
        simp [Cache.isExpiredAt, hlk] at this
        exact this
      · intro hc
        refine ⟨List.mem_map_of_mem _ hp, ?_⟩
        simp [Cache.isExpiredAt, hlk]
        exact hc
    by_cases hgt : now > p.2.2
    · simp [hiff.mpr hgt]
      omega
    · have hnm : p.1 ∉ (c.store.map (fun q => q.1)).filter (fun k => c.isExpiredAt now k) :=
        fun hc => hgt (hiff.mp hc)
      simp [hnm]
      omega
  refine ⟨key, ?_, ?_⟩
  · intro p hp
    rw [key] at hp
    have := (List.mem_filter.mp hp).2
    simpa using this
  · intro p hp hle
    rw [key]
    exact List.mem_filter.mpr ⟨hp, by simpa using hle⟩

/-- C5 witness: a two-entry store swept at time 3 keeps exactly the entry
whose expiry (5) has not passed and drops the one whose expiry (1) has. -/
theorem C5_sweep_witness :
    ((([("a", true, (5 : Int)), ("b", true, (1 : Int))] : List (String × Bool × Int)).map
        (fun p => p.1)).Nodup) ∧
    ((Cache.mk [("a", true, (5 : Int)), ("b", true, (1 : Int))] 60).cleanupAt 3).store
      = [("a", true, (5 : Int)), ("b", true, (1 : Int))].filter
          (fun p => decide ((3 : Int) ≤ p.2.2)) := by
  have hnd : ((([("a", true, (5 : Int)), ("b", true, (1 : Int))] :
      List (String × Bool × Int)).map (fun p => p.1)).Nodup) := by
    simp
  exact ⟨hnd, (C5_sweep (Cache.mk [("a", true, (5 : Int)), ("b", true, (1 : Int))] 60) 3 hnd).1⟩

/-- C8: `set(k, v2, ttl)` on a key already stored unexpired with `(v1, e1)`
stores exactly `(v2, now + ttl)`; the stored pair after the call is fully
determined by `v2`, `now` and `ttl`, never by `e1`. -/
theorem C8_set_replaces {κ α : Type} [DecidableEq κ] (c : Cache κ α) (now : Int) (k : κ)
    (v1 : α) (e1 : Int) (v2 : α) (t : Int)
    (h1 : lookupEntry c.store k = some (v1, e1)) (h2 : now ≤ e1) :
    lookupEntry (c.setAt now k v2 (some t)).store k = some (v2, now + t) := by
  simp [Cache.setAt, lookupEntry_storeAssign_self]

/-- C8 witness: a key stored as `(false, 100)` and overwritten at time 7
with ttl 3 is stored as `(true, 10)` afterwards. -/
theorem C8_set_replaces_witness :
    lookupEntry (Cache.mk [("k", false, (100 : Int))] 60).store "k" = some (false, 100) ∧
    (7 : Int) ≤ 100 ∧
    lookupEntry ((Cache.mk [("k", false, (100 : Int))] 60).setAt 7 "k" true (some 3)).store "k"
      = some (true, 10) :=
  ⟨rfl, by norm_num,
    C8_set_replaces (Cache.mk [("k", false, (100 : Int))] 60) 7 "k" false 100 true 3 rfl
      (by norm_num)⟩

/-- C9: a matched detail record lacking a "txid" field is dumped to the
fixed name `unknown_txid.json`, so any two such records are written to the
same path in the dump folder. -/
theorem C9_unknown_txid (folder : String) (tx1 tx2 : Tx)
    (h1 : tx1.txid = none) (h2 : tx2.txid = none) :
    dump_file_name tx1 = "unknown_txid.json" ∧
    dump_path folder tx1 = dump_path folder tx2 := by
  constructor
  · rw [dump_file_name, h1]
    rfl
  · rw [dump_path, dump_path, dump_file_name, dump_file_name, h1, h2]

/-- C9 witness: two distinct txid-less records dumped under the same
folder share the file name. -/
theorem C9_unknown_txid_witness :
    (Tx.mk none [] : Tx).txid = none ∧
    (Tx.mk none [Vin.mk (some "A") (some 0)] : Tx).txid = none ∧
    dump_file_name (Tx.mk none []) = "unknown_txid.json" ∧
    dump_path "dumped_txs" (Tx.mk none [])
      = dump_path "dumped_txs" (Tx.mk none [Vin.mk (some "A") (some 0)]) := by
  have h := C9_unknown_txid "dumped_txs" (Tx.mk none [])
    (Tx.mk none [Vin.mk (some "A") (some 0)]) rfl rfl
  exact ⟨rfl, rfl, h.1, h.2⟩

/-- C10: deleting a key that is still physically stored succeeds (returning
the store with that entry removed) even when its expiry has passed and a
membership query would therefore answer false; a `KeyError` is raised only
when the key is absent from the backing store itself. -/
theorem C10_delete_expired {κ α : Type} [DecidableEq κ] (c : Cache κ α) (k : κ) (now : Int) :
    (∀ v e, lookupEntry c.store k = some (v, e) → now > e →
      (c.containsAt now k).1 = false ∧
      c.delItem k = Except.ok { c with store := popEntry c.store k }) ∧
    (lookupEntry c.store k = none → c.delItem k = Except.error ()) := by
  constructor
  · intro v e hl he
    constructor
    · rw [containsAt_of_expired c now k v e hl he]
    · simp [Cache.delItem, hl]
  · intro hl
    simp [Cache.delItem, hl]

/-- C10 witness: a key stored with expiry 0 queried and deleted at time 5:
`contains` answers false, yet `delete` succeeds; on the emptied store a
second delete raises. -/
theorem C10_delete_expired_witness :
    (lookupEntry (Cache.mk [("k", true, (0 : Int))] 60).store "k" = some (true, 0) ∧
      (5 : Int) > 0 ∧
      ((Cache.mk [("k", true, (0 : Int))] 60).containsAt 5 "k").1 = false ∧
      (Cache.mk [("k", true, (0 : Int))] 60).delItem "k"
        = Except.ok (Cache.mk [] 60)) ∧
    (lookupEntry (Cache.mk ([] : List (String × Bool × Int)) 60).store "k" = none ∧
      (Cache.mk ([] : List (String × Bool × Int)) 60).delItem "k" = Except.error ()) := by
  have h1 := (C10_delete_expired (Cache.mk [("k", true, (0 : Int))] 60) "k" 5).1 true 0 rfl
    (by norm_num)
  have h2 := (C10_delete_expired (Cache.mk ([] : List (String × Bool × Int)) 60) "k" 5).2 rfl
  exact ⟨⟨rfl, by norm_num, h1.1, h1.2⟩, ⟨rfl, h2⟩⟩

/-- C2 counterexample: a watch-list file whose only line is malformed.  The
reload in `run` sits outside the `try` block, so the `ValueError` escapes
the cycle uncaught (exception component `some`): the loop does not proceed
to sleep and retry, contradicting the claim. -/
theorem C2_counterexample :
    runCycle (some ["abc"]) (Except.ok []) (fun _ => Fetch.err) 0
        ⟨[], ⟨⟨[], 60⟩, [], []⟩⟩
      = (⟨[], ⟨⟨[], 60⟩, [], []⟩⟩, some "ValueError") := rfl

/-- C2 amended: a watch-list load failure is NOT caught at the cycle
boundary — it propagates out of the run loop unchanged-state (terminating
the process); only errors raised inside `_process_mempool` (e.g. a failed
candidate listing) are caught there, after which the cycle proceeds to
sleep and retry. -/
theorem C2_load_error_uncaught (file : Option (List String))
    (listing : Except Unit (List String)) (fetch : String → Fetch Tx) (now : Int)
    (st : FullState) :
    (∀ e, load_watched_outputs file = .error e →
      runCycle file listing fetch now st = (st, some e)) ∧
    (∀ w, load_watched_outputs file = .ok w →
      (runCycle file listing fetch now st).2 = none) := by
  constructor
  · intro e he
    simp [runCycle, he]
  · intro w hw
    simp only [runCycle, hw]
    cases listing <;> simp

/-- C2 witness: a missing watch-list file makes the cycle terminate with
the uncaught `FileNotFoundError`, while a well-formed file together with a
failed candidate listing completes the cycle normally. -/
theorem C2_load_error_uncaught_witness :
    (load_watched_outputs none = .error "FileNotFoundError" ∧
      runCycle none (Except.ok []) (fun _ => Fetch.err) 0 ⟨[], ⟨⟨[], 60⟩, [], []⟩⟩
        = (⟨[], ⟨⟨[], 60⟩, [], []⟩⟩, some "FileNotFoundError")) ∧
    (load_watched_outputs (some ["a,1"]) = .ok [("a", 1)] ∧
      (runCycle (some ["a,1"]) (Except.error ()) (fun _ => Fetch.err) 0
        ⟨[], ⟨⟨[], 60⟩, [], []⟩⟩).2 = none) := by
  have h1 := (C2_load_error_uncaught none (Except.ok []) (fun _ => Fetch.err) 0
    ⟨[], ⟨⟨[], 60⟩, [], []⟩⟩).1 "FileNotFoundError" rfl
  have h2 := (C2_load_error_uncaught (some ["a,1"]) (Except.error ()) (fun _ => Fetch.err) 0
    ⟨[], ⟨⟨[], 60⟩, [], []⟩⟩).2 [("a", 1)] rfl
  exact ⟨⟨rfl, h1⟩, ⟨rfl, h2⟩⟩

/-- C3 counterexample: one candidate whose fetch raises a transport error,
against an empty cache: after the cycle the identifier is nonetheless
present in the cache (the `cache.set` sits after the `try`/`except`), so a
fetch-failed identifier is NOT left unmarked as the claim states. -/
theorem C3_counterexample :
    ((processMempool [] (fun _ => Fetch.err) 0 ["a"]
        ⟨⟨[], 60⟩, [], []⟩).cache.containsAt 0 "a").1 = true := rfl

/-- C3 amended: every candidate identifier not already present in the cache
is marked seen with the default TTL regardless of whether its detail fetch
succeeded or raised; a fetch error only skips the match-and-dump step for
that identifier. -/
theorem C3_marked_seen_even_on_error (watched : List (String × Int))
    (fetch : String → Fetch Tx) (now : Int) (st : WatchState) (txid : String)
    (h : (st.cache.containsAt now txid).1 = false) :
    lookupEntry (processTxid watched fetch now st txid).cache.store txid
      = some (true, now + st.cache.default_ttl) ∧
    (fetch txid = Fetch.err → (processTxid watched fetch now st txid).dumped = st.dumped) := by
  cases hf : fetch txid with
  | ok tx =>
    rw [processTxid_miss_ok watched fetch now st txid tx h hf]
    constructor
    · simp [Cache.setAt, lookupEntry_storeAssign_self, containsAt_snd_default]
    · intro hcc
      cases hcc
  | err =>
    rw [processTxid_miss_err watched fetch now st txid h hf]
    constructor
    · simp [Cache.setAt, lookupEntry_storeAssign_self, containsAt_snd_default]
    · intro _
      rfl

/-- C3 witness: candidate "a", empty cache, fetch raising: after the step
the cache stores `("a", true)` expiring at the default TTL and nothing was
dumped. -/
theorem C3_marked_seen_even_on_error_witness :
    ((⟨⟨[], 60⟩, [], []⟩ : WatchState).cache.containsAt 0 "a").1 = false ∧
    lookupEntry (processTxid [] (fun _ => Fetch.err) 0 ⟨⟨[], 60⟩, [], []⟩ "a").cache.store "a"
      = some (true, 60) ∧
    (processTxid [] (fun _ => Fetch.err) 0 ⟨⟨[], 60⟩, [], []⟩ "a").dumped = [] := by
  have h := C3_marked_seen_even_on_error [] (fun _ => Fetch.err) 0 ⟨⟨[], 60⟩, [], []⟩ "a" rfl
  exact ⟨rfl, h.1, h.2 rfl⟩

/-- C7: the watched-outputs load builds a fresh set and the in-memory set
is replaced only by the final assignment in `run`; whenever the load raises
(missing file or malformed line, even after valid lines), the whole state
— in particular the watched set visible to the match step — is exactly as
before the load began. -/
theorem C7_atomic_reload (file : Option (List String))
    (listing : Except Unit (List String)) (fetch : String → Fetch Tx) (now : Int)
    (st : FullState) (e : String)
    (h : load_watched_outputs file = .error e) :
    (runCycle file listing fetch now st).1 = st ∧
    (runCycle file listing fetch now st).1.watched = st.watched := by
  simp [runCycle, h]

/-- C7 witness: a file with one valid line followed by a malformed one
fails to load, and a cycle over it leaves a nonempty pre-existing watched
set untouched. -/
theorem C7_atomic_reload_witness :
    load_watched_outputs (some ["a,1", "bad"]) = .error "ValueError" ∧
    (runCycle (some ["a,1", "bad"]) (Except.ok []) (fun _ => Fetch.err) 0
      ⟨[("old", 7)], ⟨⟨[], 60⟩, [], []⟩⟩).1.watched = [("old", 7)] := by
  have h := C7_atomic_reload (some ["a,1", "bad"]) (Except.ok []) (fun _ => Fetch.err) 0
    ⟨[("old", 7)], ⟨⟨[], 60⟩, [], []⟩⟩ "ValueError" rfl
  exact ⟨rfl, h.2⟩

/-- C6: (first part) a candidate identifier absent from the cache and listed
in cycle one is fetched there and marked seen; if it is listed again in a
second cycle whose time still lies strictly within the TTL window opened at
cycle one, the fetch-and-match step runs at most once across the two cycles
(the cache hit skips it).  (second part) across cycles spanning at least the
TTL — here cycle times 0 and 11 with ttl 10 — the step may indeed run
again: in the exhibited run it executes twice. -/
theorem C6_dedup_by_cache :
    (∀ (watched1 watched2 : List (String × Int)) (fetch1 fetch2 : String → Fetch Tx)
        (now1 now2 : Int) (txids1 txids2 : List String) (st0 : WatchState) (txid : String),
      lookupEntry st0.cache.store txid = none →
      List.count txid st0.fetchLog = 0 →
      0 ≤ st0.cache.default_ttl →
      now1 ≤ now2 →
      now2 < now1 + st0.cache.default_ttl →
      txid ∈ txids1 →
      txid ∈ txids2 →
      List.count txid (processMempool watched2 fetch2 now2 txids2
        (processMempool watched1 fetch1 now1 txids1 st0)).fetchLog ≤ 1) ∧
    ((0 : Int) + 10 ≤ 11 ∧
      List.count "a" (processMempool [] (fun _ => Fetch.err) 11 ["a"]
        (processMempool [] (fun _ => Fetch.err) 0 ["a"] ⟨⟨[], 10⟩, [], []⟩)).fetchLog = 2) := by
  constructor
  · intro watched1 watched2 fetch1 fetch2 now1 now2 txids1 txids2 st0 txid
      hl hcount hd hle hlt hmem1 _
    obtain ⟨h1, h2⟩ := processMempool_fresh watched1 fetch1 now1 txids1 st0 txid hl hd hmem1
    obtain ⟨g1, g2⟩ := processMempool_preserves watched2 fetch2 now2 txids2
      (processMempool watched1 fetch1 now1 txids1 st0) txid true
      (now1 + st0.cache.default_ttl) h1 (by omega)
    rw [g2, h2, hcount]
  · exact ⟨by norm_num, rfl⟩

/-- C6 witness: cache ttl 10, candidate "a" in both cycles at times 0 and
5 (inside the window): the fetch log records a single execution. -/
theorem C6_dedup_by_cache_witness :
    lookupEntry (⟨⟨[], 10⟩, [], []⟩ : WatchState).cache.store "a" = none ∧
    List.count "a" (⟨⟨[], 10⟩, [], []⟩ : WatchState).fetchLog = 0 ∧
    (0 : Int) ≤ 10 ∧ (0 : Int) ≤ 5 ∧ (5 : Int) < 0 + 10 ∧
    "a" ∈ ["a"] ∧
    List.count "a" (processMempool [] (fun _ => Fetch.err) 5 ["a"]
      (processMempool [] (fun _ => Fetch.err) 0 ["a"] ⟨⟨[], 10⟩, [], []⟩)).fetchLog ≤ 1 := by
  have hmem : "a" ∈ ["a"] := List.mem_singleton.mpr rfl
  refine ⟨rfl, rfl, by norm_num, by norm_num, by norm_num, hmem, ?_⟩
  exact C6_dedup_by_cache.1 [] [] (fun _ => Fetch.err) (fun _ => Fetch.err) 0 5 ["a"] ["a"]
    ⟨⟨[], 10⟩, [], []⟩ "a" rfl rfl (by norm_num) (by norm_num) (by norm_num) hmem hmem
